import Mathlib

/-!
Verification of the PDF-to-JSON conversion pipeline (`conversion.py`).

The Python source is shallowly embedded: pure helper functions become Lean
functions on `String` / `List Char`; the stateful element scan of
`process_pdf` becomes an explicit fold threading the
`current_section` / `current_subsection` state; the external extraction
engine (`partition_pdf`) is abstracted as an oracle parameter; exceptions
become `Option` / `Except` values.
-/

namespace Conversion

/-- The whitespace characters recognised by Python's `str.strip()` and by
the regex class `\s` (restricted to ASCII, which is all the pipeline and
the claims exercise). -/
def isPyWS (c : Char) : Bool :=
  c = ' ' || c = '\t' || c = '\n' || c = '\r' || c = '\x0b' || c = '\x0c'

/-- Python `str.strip()` on a character list: drop leading and trailing
whitespace. -/
def stripL (l : List Char) : List Char :=
  ((l.dropWhile isPyWS).reverse.dropWhile isPyWS).reverse

/-- Python `str.strip()` on a string. -/
def pyStrip (s : String) : String :=
  String.mk (stripL s.toList)

/-- Split a character list at every occurrence of `sep` (like Python's
`str.split(sep)`): always returns at least one (possibly empty) field. -/
def splitOnChar (sep : Char) : List Char → List (List Char)
  | [] => [[]]
  | c :: rest =>
    match splitOnChar sep rest with
    | [] => [[]]
    | g :: gs => if c = sep then [] :: g :: gs else (c :: g) :: gs

/-- Truthiness of a Python `Optional[str]`: `None` and `""` are falsy. -/
def pyTruthy : Option String → Bool
  | some s => s != ""
  | none => false

/-- Python `a or b` for `a : Optional[str]`, `b : str`. -/
def pyOrStr (a : Option String) (b : String) : String :=
  match a with
  | some s => if s = "" then b else s
  | none => b

/-- One repetition step of the regex sub-pattern `(\.\d+)*`: from a list
starting with a dot followed by at least one digit, consume the dot and the
maximal digit run and return the consumed group and the remainder. -/
def dotGroupStep : List Char → Option (List Char × List Char)
  | '.' :: rest =>
    match rest.span Char.isDigit with
    | ([], _) => none
    | (ds, rest2) => some ('.' :: ds, rest2)
  | _ => none

/-- Greedy iteration of `(\.\d+)*`, fuelled by the input length (each step
consumes at least two characters, so the fuel never runs out when
initialised with the list length).  Returns the regex's group 1 — the
capture of the LAST repetition, or `none` after zero repetitions, exactly
as Python's `re` assigns a repeated capture group — and the rest of the
input. -/
def dotGroupsAux : Nat → List Char → Option (List Char) → Option (List Char) × List Char
  | 0, l, last => (last, l)
  | fuel + 1, l, last =>
    match dotGroupStep l with
    | some (g, rest) => dotGroupsAux fuel rest (some g)
    | none => (last, l)

/-- `re.match(r"^\d+(\.\d+)*\s+(.+)$", cs)` on an already-stripped
character list `cs`: on success returns `(group 1, group 2)`.

Because the input is stripped, the match is deterministic and no
backtracking can change the outcome: `\d+` is the maximal leading digit
run, `(\.\d+)*` iterates greedily, `\s+` is the maximal whitespace run
(it must be non-empty), and `(.+)$` must cover the entire remainder,
which therefore must be non-empty and contain no newline (`.` does not
match `\n`, and `$` can only match at the end of a stripped string). -/
def matchSectionRegex (cs : List Char) : Option (Option (List Char) × List Char) :=
  let p1 := cs.span Char.isDigit
  if p1.1 = [] then none
  else
    let p2 := dotGroupsAux p1.2.length p1.2 none
    let p3 := p2.2.span isPyWS
    if p3.1 = [] then none
    else if p3.2 = [] then none
    else if p3.2.contains '\n' then none
    else some (p2.1, p3.2)

/-- `detect_section_subsection` (conversion.py lines 58-75): empty text
yields `(None, None)`; otherwise the stripped text is matched against
`^\d+(\.\d+)*\s+(.+)$` and on success `match.groups()` — group 1 (the last
`.digits` repetition, possibly `None`) and group 2 (the remainder) — is
returned; on no match `(None, None)`. -/
def detect_section_subsection (text : String) : Option String × Option String :=
  if text = "" then (none, none)
  else
    match matchSectionRegex (stripL text.toList) with
    | some (g1, rest) => (g1.map String.mk, some (String.mk rest))
    | none => (none, none)

/-- Model of `pandas.read_csv(StringIO(md_text), sep="|", skiprows=1,
engine="python")` as used by `parse_markdown_table`: split into lines,
skip the first line (`skiprows=1`), drop blank lines, take the next line
as the header row (a field that is empty is auto-named `Unnamed: k` for
its column index `k`), and the remaining lines as data rows, padding a
short row with nulls up to the header width.  Failure (`none`) models the
exceptions the call can raise on this input shape: `EmptyDataError` when
no line remains after skipping, and a parser error when a data row has
more fields than the header.  Returns the header names and the grid of
optional raw cell strings. -/
def pyReadCsvPipe (md_text : String) : Option (List String × List (List (Option String))) :=
  let ls := ((splitOnChar '\n' md_text.toList).drop 1).filter (fun l => l ≠ [])
  match ls with
  | [] => none
  | header :: dataLines =>
    let hfields := splitOnChar '|' header
    let n := hfields.length
    let cols := (hfields.enum).map
      (fun kf => if kf.2 = [] then "Unnamed: " ++ toString kf.1 else String.mk kf.2)
    let rows := dataLines.map (fun ln => splitOnChar '|' ln)
    if rows.any (fun r => n < r.length) then none
    else
      some (cols, rows.map (fun r =>
        r.map (fun c => some (String.mk c)) ++ List.replicate (n - r.length) none))

/-- `parse_markdown_table` (conversion.py lines 78-97): feed the text to
`read_csv` (modelled by `pyReadCsvPipe`); on any exception return `None`.
Otherwise apply `str(x).strip()` to every cell (`""` for a null cell),
drop every column whose header name matches `^Unnamed`, and return the
grid of data-row values. -/
def parse_markdown_table (md_text : String) : Option (List (List String)) :=
  match pyReadCsvPipe md_text with
  | none => none
  | some (cols, rows) =>
    let keep := cols.map (fun c => ! c.startsWith "Unnamed")
    some (rows.map (fun r =>
      (keep.zip r).filterMap (fun kc =>
        if kc.1 then some (match kc.2 with | some v => pyStrip v | none => "") else none)))

/-- `map_element_type` (conversion.py lines 100-115). -/
def map_element_type (category : String) : String :=
  if category = "Table" then "table"
  else if category = "Image" ∨ category = "FigureCaption" then "chart"
  else "paragraph"

/-- A document element as produced by the extraction engine: coarse
category, optional raw text (`el.text`), 1-based page number
(`el.metadata.page_number`), and the rendered bounding-box points when
`el.metadata` carries coordinates (`el.metadata.coordinates.points`). -/
structure Element where
  category : String
  text : Option String
  page : Nat
  coordinates : Option String
deriving DecidableEq, Repr

/-- One output content item (the dictionary built per element in
`process_pdf`).  The field `sec` models the dictionary key `"section"`
(`section` is a Lean keyword). -/
structure ContentItem where
  type : String
  sec : Option String
  sub_section : Option String
  description : Option String
  text : Option String
  table_data : Option (List (List String))
deriving DecidableEq, Repr

/-- The bbox annotation appended when coordinates exist:
`f" (bbox={bbox})"`. -/
def bboxNote (pts : String) : String :=
  " (bbox=" ++ pts ++ ")"

/-- The `description` value of a content item before the coordinates step:
the table caption for tables, the chart caption for charts, the
`"Section header"` marker when a section was detected (`elif section:`),
else `None` (conversion.py lines 181, 186-196). -/
def baseDescription (el : Element) (sect : Option String) : Option String :=
  let el_type := map_element_type el.category
  if el_type = "table" then some ("Table on page " ++ toString el.page)
  else if el_type = "chart" then
    some ("Chart/Image on page " ++ toString el.page ++ " (category: " ++ el.category ++ ")")
  else if pyTruthy sect then some "Section header"
  else none

/-- The per-element body of the loop in `process_pdf` (lines 167-203):
given the carried `(current_section, current_subsection)` state and one
element, produce the updated state and the content item appended for the
element. -/
def processElement (st : Option String × Option String) (el : Element) :
    (Option String × Option String) × ContentItem :=
  let el_type := map_element_type el.category
  let text := el.text.getD ""
  let sd := detect_section_subsection text
  let st' : Option String × Option String :=
    if el.category = "Title" then (some (pyOrStr sd.1 text), sd.2) else st
  let tdata := if el_type = "table" then parse_markdown_table text else none
  let txt : Option String :=
    if el_type = "table" then none
    else if el_type = "chart" then none
    else some text
  let descr0 := baseDescription el sd.1
  let descr : Option String :=
    match el.coordinates with
    | some pts => some (descr0.getD "" ++ bboxNote pts)
    | none => descr0
  (st', { type := el_type, sec := st'.1, sub_section := st'.2,
          description := descr, text := txt, table_data := tdata })

/-- `pages[page_num].append(content_item)` on a `defaultdict(list)` kept
as an insertion-ordered association list: append to the page's list when
the key exists, otherwise create the key at the end. -/
def insertItem (ps : List (Nat × List ContentItem)) (p : Nat) (it : ContentItem) :
    List (Nat × List ContentItem) :=
  match ps with
  | [] => [(p, [it])]
  | (q, its) :: rest =>
    if q = p then (q, its ++ [it]) :: rest else (q, its) :: insertItem rest p it

/-- Association-list lookup for a page number. -/
def findPage (p : Nat) : List (Nat × List ContentItem) → Option (List ContentItem)
  | [] => none
  | (q, c) :: rest => if q = p then some c else findPage p rest

/-- One iteration of the `for el in elements` loop: update the section
state and append the produced item under the element's page. -/
def stepFull (acc : (Option String × Option String) × List (Nat × List ContentItem))
    (el : Element) : (Option String × Option String) × List (Nat × List ContentItem) :=
  let r := processElement acc.1 el
  (r.1, insertItem acc.2 el.page r.2)

/-- The section state carried after scanning `els`, starting from the
initial `current_section = None`, `current_subsection = None`. -/
def stateAfter (els : List Element) : Option String × Option String :=
  (els.foldl stepFull ((none, none), [])).1

/-- Insert a page group into a list sorted by page number, keeping it
before the first strictly larger key (stable; with the distinct keys the
page map produces, any sort by ascending key computes exactly what
Python's `sorted(pages.items())` returns). -/
def insertSorted (x : Nat × List ContentItem) :
    List (Nat × List ContentItem) → List (Nat × List ContentItem)
  | [] => [x]
  | y :: rest => if x.1 < y.1 then x :: y :: rest else y :: insertSorted x rest

/-- Insertion sort of the page groups by ascending page number, modelling
`sorted(pages.items())` (Python sorts the `(key, value)` tuples; the keys
are distinct, so the comparison never reaches the values and the result
is determined by the keys alone). -/
def sortByPage : List (Nat × List ContentItem) → List (Nat × List ContentItem)
  | [] => []
  | x :: rest => insertSorted x (sortByPage rest)

/-- The aggregation of `process_pdf` (lines 163-211): scan the element
stream once building the page map, then `sorted(pages.items())`. -/
def aggregate (els : List Element) : List (Nat × List ContentItem) :=
  sortByPage (els.foldl stepFull ((none, none), [])).2

/-- The stream of `(page, item)` pairs in arrival order, threading the
section state exactly as the loop does. -/
def itemStreamAux (st : Option String × Option String) :
    List Element → List (Nat × ContentItem)
  | [] => []
  | el :: rest =>
    let r := processElement st el
    (el.page, r.2) :: itemStreamAux r.1 rest

/-- Modelled from the spec: the content a page should hold — the items of
the arrival-order stream that belong to page `p`, in stream order. -/
def specPageItems (els : List Element) (p : Nat) : List ContentItem :=
  (itemStreamAux (none, none) els).filterMap
    (fun x => if x.1 = p then some x.2 else none)

/-- `DEFAULT_STRATEGY` (conversion.py line 44). -/
def DEFAULT_STRATEGY : String := "hi_res"

/-- `FALLBACK_STRATEGY` (conversion.py line 45). -/
def FALLBACK_STRATEGY : String := "fast"

/-- The extraction step of `process_pdf` (lines 144-160).  The external
`partition_pdf` is an oracle `engine` taking the strategy name and the
`infer_table_structure` flag (the first call passes `true`, the fallback
call omits it); it returns the element stream or an error.  On failure of
the primary call the fallback strategy is tried exactly once — and only
when the primary strategy differs from it — with no try/except around the
second call; otherwise the original failure is re-raised. -/
def extractElements (engine : String → Bool → Except String (List Element))
    (strategy : String) : Except String (List Element) :=
  match engine strategy true with
  | Except.ok els => Except.ok els
  | Except.error e =>
    if strategy ≠ FALLBACK_STRATEGY then engine FALLBACK_STRATEGY false
    else Except.error e

/-! Helper lemmas about the embedded operations. -/

theorem processElement_type (st : Option String × Option String) (el : Element) :
    (processElement st el).2.type = map_element_type el.category := rfl

theorem processElement_text (st : Option String × Option String) (el : Element) :
    (processElement st el).2.text =
      (if map_element_type el.category = "table" then none
       else if map_element_type el.category = "chart" then none
       else some (el.text.getD "")) := rfl

theorem processElement_table_data (st : Option String × Option String) (el : Element) :
    (processElement st el).2.table_data =
      (if map_element_type el.category = "table"
       then parse_markdown_table (el.text.getD "") else none) := rfl

theorem processElement_sec (st : Option String × Option String) (el : Element) :
    (processElement st el).2.sec = ((processElement st el).1).1 := rfl

theorem processElement_sub (st : Option String × Option String) (el : Element) :
    (processElement st el).2.sub_section = ((processElement st el).1).2 := rfl

theorem processElement_description (st : Option String × Option String) (el : Element) :
    (processElement st el).2.description =
      (match el.coordinates with
       | some pts =>
         some ((baseDescription el (detect_section_subsection (el.text.getD "")).1).getD ""
           ++ bboxNote pts)
       | none => baseDescription el (detect_section_subsection (el.text.getD "")).1) := rfl

theorem processElement_state_nonTitle (st : Option String × Option String) (el : Element)
    (h : el.category ≠ "Title") : (processElement st el).1 = st := by
  simp [processElement, h]

theorem processElement_state_Title (st : Option String × Option String) (el : Element)
    (h : el.category = "Title") :
    (processElement st el).1 =
      (some (pyOrStr (detect_section_subsection (el.text.getD "")).1 (el.text.getD "")),
       (detect_section_subsection (el.text.getD "")).2) := by
  simp [processElement, h]

theorem map_element_type_cases (c : String) :
    map_element_type c = "table" ∨ map_element_type c = "chart" ∨
      map_element_type c = "paragraph" := by
  by_cases h1 : c = "Table"
  · exact Or.inl (by simp [map_element_type, h1])
  by_cases h2 : c = "Image" ∨ c = "FigureCaption"
  · exact Or.inr (Or.inl (by simp [map_element_type, h1, h2]))
  · exact Or.inr (Or.inr (by simp [map_element_type, h1, h2]))

theorem dotGroupStep_ne_nil {l g r : List Char} (h : dotGroupStep l = some (g, r)) :
    g ≠ [] := by
  unfold dotGroupStep at h
  split at h
  · split at h
    · exact absurd h (by simp)
    · rename_i ds rest2 heq
      simp only [Option.some.injEq, Prod.mk.injEq] at h
      intro hg
      rw [hg] at h
      exact absurd h.1.symm (by simp)
  · exact absurd h (by simp)

theorem dotGroupsAux_ne_nil : ∀ (fuel : Nat) (l : List Char) (last : Option (List Char)),
    (∀ g, last = some g → g ≠ []) →
    ∀ g, (dotGroupsAux fuel l last).1 = some g → g ≠ [] := by
  intro fuel
  induction fuel with
  | zero => intro l last hl g hg; exact hl g hg
  | succ n ih =>
    intro l last hl g hg
    unfold dotGroupsAux at hg
    split at hg
    · rename_i g' rest heq
      exact ih rest (some g') (fun x hx => by cases hx; exact dotGroupStep_ne_nil heq) g hg
    · exact hl g hg

theorem matchSectionRegex_sec_ne_nil {cs : List Char} {l : List Char}
    {r : List Char} (h : matchSectionRegex cs = some (some l, r)) : l ≠ [] := by
  simp only [matchSectionRegex] at h
  split at h
  · exact absurd h (by simp)
  split at h
  · exact absurd h (by simp)
  split at h
  · exact absurd h (by simp)
  split at h
  · exact absurd h (by simp)
  simp only [Option.some.injEq, Prod.mk.injEq] at h
  exact dotGroupsAux_ne_nil _ _ none (by simp) l (by rw [h.1])

theorem detect_sec_ne_empty {t s : String}
    (h : (detect_section_subsection t).1 = some s) : s ≠ "" := by
  unfold detect_section_subsection at h
  split at h
  · exact absurd h (by simp)
  · split at h
    · rename_i g1 rest heq
      simp only [Option.map_eq_some'] at h
      obtain ⟨gl, hgl, hs⟩ := h
      subst hgl
      have hne : gl ≠ [] := matchSectionRegex_sec_ne_nil heq
      intro hempty
      rw [← hs] at hempty
      exact hne (congrArg String.toList hempty)
    · exact absurd h (by simp)

theorem splitOnChar_eq_single {sep : Char} :
    ∀ {l : List Char}, sep ∉ l → splitOnChar sep l = [l] := by
  intro l
  induction l with
  | nil => intro _; rfl
  | cons c rest ih =>
    intro h
    have hc : ¬ (c = sep) := fun hcs => h (by rw [hcs]; exact List.mem_cons_self _ _)
    have hr : sep ∉ rest := fun hm => h (List.mem_cons_of_mem _ hm)
    simp [splitOnChar, ih hr, hc]

theorem stateAfter_nonTitle_aux :
    ∀ (els : List Element), (∀ el ∈ els, el.category ≠ "Title") →
    ∀ (st : Option String × Option String) (ps : List (Nat × List ContentItem)),
      (els.foldl stepFull (st, ps)).1 = st := by
  intro els
  induction els with
  | nil => intro _ st ps; rfl
  | cons el rest ih =>
    intro h st ps
    have h1 : el.category ≠ "Title" := h el (List.mem_cons_self _ _)
    have h2 : ∀ e ∈ rest, e.category ≠ "Title" := fun e he => h e (List.mem_cons_of_mem _ he)
    rw [List.foldl_cons]
    have hstep : stepFull (st, ps) el = (st, insertItem ps el.page (processElement st el).2) := by
      simp [stepFull, processElement_state_nonTitle st el h1]
    rw [hstep]
    exact ih h2 st _

theorem pyReadCsvPipe_single {s : String} (h : '\n' ∉ s.toList) :
    pyReadCsvPipe s = none := by
  have h2 : '\n' ∉ s.data := h
  simp [pyReadCsvPipe, splitOnChar_eq_single h2]

theorem itemStreamAux_length : ∀ (els : List Element) (st : Option String × Option String),
    (itemStreamAux st els).length = els.length := by
  intro els
  induction els with
  | nil => intro st; rfl
  | cons el rest ih =>
    intro st
    simp [itemStreamAux, ih]

/-! Claim theorems. -/

/-- C1 (code evaluation at the failing input): `detect_section_subsection`
does NOT return the full dotted numeric prefix.  For `"1.2 Overview"` it
returns section `".2"` — the regex `^\d+(\.\d+)*\s+(.+)$` captures only
the last repetition of the dot-group — and for the deeper heading
`"2.3.4 Deep"` it returns `".4"`; for a single-group heading `"3 Intro"`
the group captures nothing at all and the section is `None` while the
remainder is still returned.  This contradicts both the claim and the
script's own schema documentation (`section: Detected section (e.g., '1.1')`). -/
theorem claim_C1_eval :
    detect_section_subsection "1.2 Overview" = (some ".2", some "Overview") ∧
    detect_section_subsection "2.3.4 Deep" = (some ".4", some "Deep") ∧
    detect_section_subsection "3 Intro" = (none, some "Intro") ∧
    some ".2" ≠ some ("1.2" : String) := by
  refine ⟨rfl, rfl, rfl, by decide⟩

/-- C2 (counterexample): for a Title element whose text has surrounding
whitespace and no numeric heading, `current_section` is set to the RAW
text `" Welcome "`, not to the stripped text `"Welcome"` the claim
demands (`current_section = section or text` uses the unstripped
`el.text`). -/
theorem claim_C2_cex :
    ((processElement (none, none) ⟨"Title", some " Welcome ", 1, none⟩).1).1 =
      some " Welcome " ∧
    pyStrip " Welcome " = "Welcome" ∧
    (" Welcome " : String) ≠ "Welcome" := by
  refine ⟨rfl, rfl, by decide⟩

/-- C2 (amended): for every element whose category is `"Title"`, the
aggregator sets `current_section` to the detected section label when one
was detected, and otherwise to the element's raw text exactly as
extracted (NOT stripped; the empty string when the text is missing); and
it sets `current_subsection` to the detected remainder, which is absent
whenever the text did not match the numeric-heading pattern, regardless
of any previously carried subsection. -/
theorem claim_C2_thm :
    ∀ (st : Option String × Option String) (el : Element), el.category = "Title" →
    (∀ s, (detect_section_subsection (el.text.getD "")).1 = some s →
      ((processElement st el).1).1 = some s) ∧
    ((detect_section_subsection (el.text.getD "")).1 = none →
      ((processElement st el).1).1 = some (el.text.getD "")) ∧
    ((processElement st el).1).2 = (detect_section_subsection (el.text.getD "")).2 := by
  intro st el h
  rw [processElement_state_Title st el h]
  refine ⟨?_, ?_, rfl⟩
  · intro s hs
    rw [hs]
    simp [pyOrStr, detect_sec_ne_empty hs]
  · intro hn
    rw [hn]
    rfl

/-- C2 (witness): a Title with a dotted heading adopts the captured
label; a Title with plain text adopts the raw text and clears the
previously-set subsection. -/
theorem claim_C2_witness :
    ((processElement (none, none) ⟨"Title", some "1.2 Overview", 1, none⟩).1).1 =
      some ".2" ∧
    ((processElement (some "a", some "b") ⟨"Title", some "Intro", 2, none⟩).1).1 =
      some "Intro" ∧
    ((processElement (some "a", some "b") ⟨"Title", some "Intro", 2, none⟩).1).2 = none := by
  refine ⟨(claim_C2_thm (none, none) _ rfl).1 ".2" rfl,
    (claim_C2_thm (some "a", some "b") _ rfl).2.1 rfl,
    ((claim_C2_thm (some "a", some "b") _ rfl).2.2).trans rfl⟩

/-- C3: the carried section state starts absent and is left unchanged by
every non-Title element, whose produced item inherits the carried values;
moreover every item (Title or not) carries the just-updated state. -/
theorem claim_C3 :
    (∀ (st : Option String × Option String) (el : Element), el.category ≠ "Title" →
      (processElement st el).1 = st ∧
      (processElement st el).2.sec = st.1 ∧
      (processElement st el).2.sub_section = st.2) ∧
    (∀ els : List Element, (∀ el ∈ els, el.category ≠ "Title") →
      stateAfter els = (none, none)) ∧
    (∀ (st : Option String × Option String) (el : Element),
      (processElement st el).2.sec = ((processElement st el).1).1 ∧
      (processElement st el).2.sub_section = ((processElement st el).1).2) := by
  refine ⟨?_, ?_, fun st el => ⟨rfl, rfl⟩⟩
  · intro st el h
    have hst := processElement_state_nonTitle st el h
    exact ⟨hst, by rw [processElement_sec, hst], by rw [processElement_sub, hst]⟩
  · intro els h
    exact stateAfter_nonTitle_aux els h (none, none) []

/-- C3 (witness): a narrative element leaves a concrete carried state
untouched and its item inherits it; a stream of two non-Title elements
ends with the state still absent. -/
theorem claim_C3_witness :
    (processElement (some "1.", some "Intro") ⟨"NarrativeText", some "body", 1, none⟩).1 =
      (some "1.", some "Intro") ∧
    (processElement (some "1.", some "Intro") ⟨"NarrativeText", some "body", 1, none⟩).2.sec =
      some "1." ∧
    stateAfter [⟨"NarrativeText", some "a", 1, none⟩, ⟨"Table", some "b", 2, none⟩] =
      (none, none) := by
  refine ⟨(claim_C3.1 _ _ (by decide)).1, (claim_C3.1 _ _ (by decide)).2.1,
    claim_C3.2.1 _ ?_⟩
  intro el hel
  simp only [List.mem_cons, List.not_mem_nil, or_false] at hel
  rcases hel with h | h <;> rw [h] <;> decide

/-- C5: the two-column markdown table with a header row, a dash separator
row and one data row parses to the single data row with trimmed cells
(pandas skips the first line via `skiprows=1` and consumes the next line
as the header, so both the header row and the separator row are excluded
from the emitted grid). -/
theorem claim_C5 :
    parse_markdown_table "A|B\n--|--\n1|2" = some [["1", "2"]] ∧
    parse_markdown_table "A|B\n--|--\n 1 | 2 " = some [["1", "2"]] := by
  exact ⟨rfl, rfl⟩

/-- C6: whenever the modelled `read_csv` call fails, `parse_markdown_table`
returns `None` (the exception is caught) — in particular for any
single-line text (no newline: nothing remains after `skiprows=1`), for the
empty string, and for delimiter-free one-line text; and the caller stores
the absent result as an absent `table_data` on the item while the scan
continues, still producing one item per element. -/
theorem claim_C6 :
    (∀ s : String, pyReadCsvPipe s = none → parse_markdown_table s = none) ∧
    (∀ s : String, '\n' ∉ s.toList → parse_markdown_table s = none) ∧
    parse_markdown_table "" = none ∧
    parse_markdown_table "hello" = none ∧
    (∀ (st : Option String × Option String) (el : Element), el.category = "Table" →
      parse_markdown_table (el.text.getD "") = none →
      (processElement st el).2.table_data = none) ∧
    (∀ (st : Option String × Option String) (els : List Element),
      (itemStreamAux st els).length = els.length) := by
  have h1 : ∀ s : String, pyReadCsvPipe s = none → parse_markdown_table s = none := by
    intro s h
    simp [parse_markdown_table, h]
  refine ⟨h1, ?_, rfl, rfl, ?_, fun st els => itemStreamAux_length els st⟩
  · intro s h
    exact h1 s (pyReadCsvPipe_single h)
  · intro st el hcat hparse
    rw [processElement_table_data]
    simp [map_element_type, hcat, hparse]

/-- C6 (witness): the failure conjuncts applied at concrete inputs — a
newline-free text parses to `None`, and a Table element with such text
yields an item whose `table_data` is absent. -/
theorem claim_C6_witness :
    parse_markdown_table "just text" = none ∧
    (processElement (none, none) ⟨"Table", some "just text", 4, none⟩).2.table_data = none := by
  refine ⟨claim_C6.2.1 "just text" (by decide), ?_⟩
  exact claim_C6.2.2.2.2.1 (none, none) _ rfl (claim_C6.2.1 "just text" (by decide))

/-- C7: per item, `text` is populated only when the type is not `table`,
and `table_data` only when the type is `table`; a paragraph always has a
populated `text`, and a table item's `text` is always cleared. -/
theorem claim_C7 :
    ∀ (st : Option String × Option String) (el : Element),
    ((processElement st el).2.text.isSome → (processElement st el).2.type ≠ "table") ∧
    ((processElement st el).2.table_data.isSome → (processElement st el).2.type = "table") ∧
    ((processElement st el).2.type = "paragraph" → (processElement st el).2.text.isSome) ∧
    ((processElement st el).2.type = "table" → (processElement st el).2.text = none) := by
  intro st el
  rw [processElement_type, processElement_text, processElement_table_data]
  rcases map_element_type_cases el.category with h | h | h <;> simp [h]

/-- C7 (witness): the populated-field implications at concrete items — a
narrative element gives a non-table type, a well-formed table element
gives a populated `table_data` hence type `table`, a paragraph's `text` is
populated, and a table's `text` is cleared. -/
theorem claim_C7_witness :
    (processElement (none, none) ⟨"NarrativeText", some "hi", 1, none⟩).2.type ≠ "table" ∧
    (processElement (none, none) ⟨"Table", some "A|B\n--|--\n1|2", 1, none⟩).2.type = "table" ∧
    (processElement (none, none) ⟨"NarrativeText", some "hi", 1, none⟩).2.text.isSome ∧
    (processElement (none, none) ⟨"Table", some "A|B\n--|--\n1|2", 1, none⟩).2.text = none := by
  refine ⟨(claim_C7 _ _).1 rfl, (claim_C7 _ _).2.1 rfl,
    (claim_C7 _ _).2.2.1 rfl, (claim_C7 _ _).2.2.2 rfl⟩

/-- C8: with the extraction engine abstracted as an oracle, a successful
primary call is returned as-is; a failed primary call is retried exactly
once with the fallback strategy when and only when the chosen strategy
differs from it, the fallback's outcome (success or failure) becoming the
final one; and a failure when already on the fallback strategy propagates
unchanged. -/
theorem claim_C8 :
    ∀ (engine : String → Bool → Except String (List Element)) (strategy : String),
    (∀ els, engine strategy true = Except.ok els →
      extractElements engine strategy = Except.ok els) ∧
    (∀ e, engine strategy true = Except.error e → strategy ≠ FALLBACK_STRATEGY →
      extractElements engine strategy = engine FALLBACK_STRATEGY false) ∧
    (∀ e, engine strategy true = Except.error e → strategy = FALLBACK_STRATEGY →
      extractElements engine strategy = Except.error e) := by
  intro engine strategy
  refine ⟨?_, ?_, ?_⟩
  · intro els h
    simp [extractElements, h]
  · intro e h hne
    simp [extractElements, h, hne]
  · intro e h heq
    subst heq
    simp [extractElements, h]

/-- C8 (witness): an engine failing on `"hi_res"` and succeeding on
`"fast"` makes the pipeline return the fallback's result, while an engine
failing on `"fast"` itself propagates the error. -/
theorem claim_C8_witness :
    extractElements
      (fun s _ => if s = "hi_res" then Except.error "boom" else Except.ok []) "hi_res" =
      Except.ok [] ∧
    extractElements (fun _ _ => Except.error "dead") "fast" = Except.error "dead" := by
  refine ⟨((claim_C8 _ "hi_res").2.1 "boom" rfl (by decide)).trans rfl,
    (claim_C8 _ "fast").2.2 "dead" rfl rfl⟩

/-- C9: every element carrying coordinates gets the bbox annotation
appended to its description, concatenating onto the empty string when no
caption or marker was set, for every content type alike. -/
theorem claim_C9 :
    ∀ (st : Option String × Option String) (el : Element) (pts : String),
    el.coordinates = some pts →
    (processElement st el).2.description =
      some ((baseDescription el (detect_section_subsection (el.text.getD "")).1).getD ""
        ++ bboxNote pts) := by
  intro st el pts h
  rw [processElement_description, h]

/-- C9 (witness): the bbox suffix at concrete elements — appended to the
empty base on a plain paragraph, and appended to the table caption on a
table element. -/
theorem claim_C9_witness :
    (processElement (none, none) ⟨"NarrativeText", some "hello", 3, some "p1"⟩).2.description =
      some " (bbox=p1)" ∧
    (processElement (none, none) ⟨"Table", some "t", 7, some "p2"⟩).2.description =
      some "Table on page 7 (bbox=p2)" := by
  refine ⟨(claim_C9 (none, none) _ "p1" rfl).trans rfl,
    (claim_C9 (none, none) _ "p2" rfl).trans rfl⟩

/-- C10: a paragraph item's `text` is always the populated string
`el.text` (defaulted to the empty string when the element's text is
missing), never null; a null `text` can occur only on table or chart
items. -/
theorem claim_C10 :
    ∀ (st : Option String × Option String) (el : Element),
    ((processElement st el).2.type = "paragraph" →
      (processElement st el).2.text = some (el.text.getD "")) ∧
    ((processElement st el).2.text = none →
      (processElement st el).2.type = "table" ∨ (processElement st el).2.type = "chart") := by
  intro st el
  rw [processElement_type, processElement_text]
  rcases map_element_type_cases el.category with h | h | h <;> simp [h]

/-- C10 (witness): a paragraph with missing text still carries
`text = some ""`, and a table item's null text has type `table`. -/
theorem claim_C10_witness :
    (processElement (none, none) ⟨"NarrativeText", none, 1, none⟩).2.text = some "" ∧
    ((processElement (none, none) ⟨"Table", some "x", 1, none⟩).2.type = "table" ∨
      (processElement (none, none) ⟨"Table", some "x", 1, none⟩).2.type = "chart") := by
  refine ⟨(claim_C10 _ _).1 rfl, (claim_C10 _ _).2 rfl⟩

/-! Lemmas about the page map, the element fold and the final sort,
leading to the page-grouping claim. -/

theorem findPage_insertItem (p q : Nat) (it : ContentItem) :
    ∀ ps : List (Nat × List ContentItem),
    findPage p (insertItem ps q it) =
      if q = p then some ((findPage p ps).getD [] ++ [it]) else findPage p ps := by
  intro ps
  induction ps with
  | nil => by_cases h : q = p <;> simp [insertItem, findPage, h]
  | cons hd tl ih =>
    obtain ⟨r, c⟩ := hd
    by_cases hrq : r = q
    · subst hrq
      by_cases hp : r = p
      · subst hp
        simp [insertItem, findPage]
      · simp [insertItem, findPage, hp]
    · by_cases hp : r = p
      · subst hp
        have hq : ¬ (q = r) := fun h => hrq h.symm
        simp [insertItem, findPage, hrq, hq]
      · simp [insertItem, findPage, hrq, hp, ih]

theorem mem_keys_insertItem (q : Nat) (it : ContentItem) :
    ∀ (ps : List (Nat × List ContentItem)) (x : Nat),
      x ∈ (insertItem ps q it).map Prod.fst ↔ x ∈ ps.map Prod.fst ∨ x = q := by
  intro ps
  induction ps with
  | nil => intro x; simp [insertItem]
  | cons hd tl ih =>
    obtain ⟨r, c⟩ := hd
    intro x
    by_cases hrq : r = q
    · subst hrq
      simp [insertItem]
      tauto
    · simp [insertItem, hrq, ih]
      tauto

theorem nodup_keys_insertItem (q : Nat) (it : ContentItem) :
    ∀ ps : List (Nat × List ContentItem), ((ps.map Prod.fst).Nodup) →
      ((insertItem ps q it).map Prod.fst).Nodup := by
  intro ps
  induction ps with
  | nil => intro _; simp [insertItem]
  | cons hd tl ih =>
    obtain ⟨r, c⟩ := hd
    intro h
    simp only [List.map_cons, List.nodup_cons] at h
    by_cases hrq : r = q
    · subst hrq
      rw [show insertItem ((r, c) :: tl) r it = (r, c ++ [it]) :: tl from by
        simp [insertItem]]
      simp only [List.map_cons, List.nodup_cons]
      exact ⟨h.1, h.2⟩
    · rw [show insertItem ((r, c) :: tl) q it = (r, c) :: insertItem tl q it from by
        simp [insertItem, hrq]]
      simp only [List.map_cons, List.nodup_cons]
      refine ⟨?_, ih h.2⟩
      intro hmem
      rcases (mem_keys_insertItem q it tl r).mp hmem with hm | hm
      · exact h.1 hm
      · exact hrq hm

theorem insertItem_vals_ne_nil (q : Nat) (it : ContentItem) :
    ∀ ps : List (Nat × List ContentItem), (∀ pc ∈ ps, pc.2 ≠ []) →
      ∀ pc ∈ insertItem ps q it, pc.2 ≠ [] := by
  intro ps
  induction ps with
  | nil =>
    intro _ pc hpc
    simp only [insertItem, List.mem_singleton] at hpc
    rw [hpc]
    simp
  | cons hd tl ih =>
    obtain ⟨r, c⟩ := hd
    intro h pc hpc
    by_cases hrq : r = q
    · subst hrq
      rw [show insertItem ((r, c) :: tl) r it = (r, c ++ [it]) :: tl from by
        simp [insertItem]] at hpc
      rcases List.mem_cons.mp hpc with h1 | h1
      · rw [h1]; simp
      · exact h pc (List.mem_cons_of_mem _ h1)
    · rw [show insertItem ((r, c) :: tl) q it = (r, c) :: insertItem tl q it from by
        simp [insertItem, hrq]] at hpc
      rcases List.mem_cons.mp hpc with h1 | h1
      · rw [h1]; exact h (r, c) (List.mem_cons_self _ _)
      · exact ih (fun x hx => h x (List.mem_cons_of_mem _ hx)) pc h1

theorem mem_of_findPage {p : Nat} {c : List ContentItem} :
    ∀ {ps : List (Nat × List ContentItem)}, findPage p ps = some c → (p, c) ∈ ps := by
  intro ps
  induction ps with
  | nil => intro h; simp [findPage] at h
  | cons hd tl ih =>
    obtain ⟨r, d⟩ := hd
    intro h
    simp only [findPage] at h
    by_cases hrp : r = p
    · subst hrp
      rw [if_pos rfl] at h
      cases h
      exact List.mem_cons_self _ _
    · rw [if_neg hrp] at h
      exact List.mem_cons_of_mem _ (ih h)

theorem findPage_of_mem_nodup {p : Nat} {c : List ContentItem} :
    ∀ {ps : List (Nat × List ContentItem)}, ((ps.map Prod.fst).Nodup) →
      (p, c) ∈ ps → findPage p ps = some c := by
  intro ps
  induction ps with
  | nil => intro _ h; simp at h
  | cons hd tl ih =>
    obtain ⟨r, d⟩ := hd
    intro hnd hmem
    simp only [List.map_cons, List.nodup_cons] at hnd
    rcases List.mem_cons.mp hmem with h1 | h1
    · cases h1
      simp [findPage]
    · have hrp : ¬ (r = p) := by
        intro he
        subst he
        exact hnd.1 (by simpa using List.mem_map_of_mem Prod.fst h1)
      simp [findPage, hrp, ih hnd.2 h1]

theorem foldl_stepFull_findPage (p : Nat) :
    ∀ (els : List Element) (st : Option String × Option String)
      (ps : List (Nat × List ContentItem)),
    (findPage p ((els.foldl stepFull (st, ps)).2)).getD [] =
      (findPage p ps).getD [] ++
        (itemStreamAux st els).filterMap (fun x => if x.1 = p then some x.2 else none) := by
  intro els
  induction els with
  | nil => intro st ps; simp [itemStreamAux]
  | cons el rest ih =>
    intro st ps
    rw [List.foldl_cons]
    rw [show stepFull (st, ps) el =
      ((processElement st el).1, insertItem ps el.page (processElement st el).2) from rfl]
    rw [ih, findPage_insertItem]
    simp only [itemStreamAux, List.filterMap_cons]
    by_cases hpe : el.page = p
    · rw [if_pos hpe]
      simp [hpe]
    · rw [if_neg hpe]
      simp [hpe]

theorem foldl_stepFull_keys_mem (p : Nat) :
    ∀ (els : List Element) (st : Option String × Option String)
      (ps : List (Nat × List ContentItem)),
      p ∈ ((els.foldl stepFull (st, ps)).2).map Prod.fst ↔
        p ∈ ps.map Prod.fst ∨ p ∈ els.map Element.page := by
  intro els
  induction els with
  | nil => intro st ps; simp
  | cons el rest ih =>
    intro st ps
    rw [List.foldl_cons]
    rw [show stepFull (st, ps) el =
      ((processElement st el).1, insertItem ps el.page (processElement st el).2) from rfl]
    rw [ih, mem_keys_insertItem]
    simp only [List.map_cons, List.mem_cons]
    tauto

theorem foldl_stepFull_keys_nodup :
    ∀ (els : List Element) (st : Option String × Option String)
      (ps : List (Nat × List ContentItem)), ((ps.map Prod.fst).Nodup) →
      (((els.foldl stepFull (st, ps)).2).map Prod.fst).Nodup := by
  intro els
  induction els with
  | nil => intro st ps h; exact h
  | cons el rest ih =>
    intro st ps h
    rw [List.foldl_cons]
    rw [show stepFull (st, ps) el =
      ((processElement st el).1, insertItem ps el.page (processElement st el).2) from rfl]
    exact ih _ _ (nodup_keys_insertItem el.page _ ps h)

theorem foldl_stepFull_vals_ne_nil :
    ∀ (els : List Element) (st : Option String × Option String)
      (ps : List (Nat × List ContentItem)), (∀ pc ∈ ps, pc.2 ≠ []) →
      ∀ pc ∈ (els.foldl stepFull (st, ps)).2, pc.2 ≠ [] := by
  intro els
  induction els with
  | nil => intro st ps h; exact h
  | cons el rest ih =>
    intro st ps h
    rw [List.foldl_cons]
    rw [show stepFull (st, ps) el =
      ((processElement st el).1, insertItem ps el.page (processElement st el).2) from rfl]
    exact ih _ _ (insertItem_vals_ne_nil el.page _ ps h)

theorem insertSorted_perm (x : Nat × List ContentItem) :
    ∀ l, (insertSorted x l).Perm (x :: l) := by
  intro l
  induction l with
  | nil => exact List.Perm.refl _
  | cons y rest ih =>
    by_cases h : x.1 < y.1
    · simp only [insertSorted, h, ite_true]
      exact List.Perm.refl _
    · simp only [insertSorted, h, ite_false]
      exact (ih.cons y).trans (List.Perm.swap x y rest)

theorem sortByPage_perm : ∀ l, (sortByPage l).Perm l := by
  intro l
  induction l with
  | nil => exact List.Perm.refl _
  | cons x rest ih =>
    simp only [sortByPage]
    exact (insertSorted_perm x _).trans (ih.cons x)

theorem insertSorted_pairwise (x : Nat × List ContentItem) :
    ∀ l, List.Pairwise (fun a b : Nat × List ContentItem => a.1 ≤ b.1) l →
      List.Pairwise (fun a b : Nat × List ContentItem => a.1 ≤ b.1) (insertSorted x l) := by
  intro l
  induction l with
  | nil => intro _; simp [insertSorted]
  | cons y rest ih =>
    intro h
    rw [List.pairwise_cons] at h
    by_cases hxy : x.1 < y.1
    · simp only [insertSorted, hxy, ite_true]
      rw [List.pairwise_cons]
      refine ⟨?_, List.pairwise_cons.mpr h⟩
      intro z hz
      rcases List.mem_cons.mp hz with h1 | h1
      · rw [h1]; exact le_of_lt hxy
      · exact le_trans (le_of_lt hxy) (h.1 z h1)
    · simp only [insertSorted, hxy, ite_false]
      rw [List.pairwise_cons]
      refine ⟨?_, ih h.2⟩
      intro z hz
      have hz2 : z = x ∨ z ∈ rest := by
        have := (insertSorted_perm x rest).mem_iff.mp hz
        simpa using this
      rcases hz2 with h1 | h1
      · rw [h1]; exact Nat.le_of_not_lt hxy
      · exact h.1 z h1

theorem sortByPage_pairwise :
    ∀ l, List.Pairwise (fun a b : Nat × List ContentItem => a.1 ≤ b.1) (sortByPage l) := by
  intro l
  induction l with
  | nil => simp [sortByPage]
  | cons x rest ih => exact insertSorted_pairwise x _ ih

/-- C4: the output page groups have pairwise-distinct page numbers in
strictly ascending order; the page numbers present are exactly the
distinct page numbers of the input elements; and each page's content is
exactly the arrival-order stream of items produced for that page (hence
non-empty, so element-free pages are absent). -/
theorem claim_C4 : ∀ els : List Element,
    (((aggregate els).map Prod.fst).Nodup) ∧
    List.Pairwise (fun a b : Nat × List ContentItem => a.1 < b.1) (aggregate els) ∧
    (∀ p, p ∈ (aggregate els).map Prod.fst ↔ p ∈ els.map Element.page) ∧
    (∀ p c, (p, c) ∈ aggregate els → c = specPageItems els p ∧ c ≠ []) := by
  intro els
  have hperm : (aggregate els).Perm ((els.foldl stepFull ((none, none), [])).2) :=
    sortByPage_perm _
  have hkeysperm : ((aggregate els).map Prod.fst).Perm
      (((els.foldl stepFull ((none, none), [])).2).map Prod.fst) := hperm.map _
  have hnodupF : (((els.foldl stepFull ((none, none), [])).2).map Prod.fst).Nodup :=
    foldl_stepFull_keys_nodup els (none, none) [] (by simp)
  have hnodup : ((aggregate els).map Prod.fst).Nodup := hkeysperm.nodup_iff.mpr hnodupF
  refine ⟨hnodup, ?_, ?_, ?_⟩
  · have hle : List.Pairwise (fun a b : Nat × List ContentItem => a.1 ≤ b.1)
        (aggregate els) := sortByPage_pairwise _
    have hne : List.Pairwise (fun a b : Nat × List ContentItem => a.1 ≠ b.1)
        (aggregate els) := List.pairwise_map.mp hnodup
    exact (hle.and hne).imp (fun h => lt_of_le_of_ne h.1 h.2)
  · intro p
    rw [hkeysperm.mem_iff, foldl_stepFull_keys_mem]
    simp
  · intro p c hmem
    have hmemF : (p, c) ∈ (els.foldl stepFull ((none, none), [])).2 :=
      hperm.mem_iff.mp hmem
    refine ⟨?_, foldl_stepFull_vals_ne_nil els (none, none) [] (by simp) (p, c) hmemF⟩
    have hfp := findPage_of_mem_nodup hnodupF hmemF
    have heq := foldl_stepFull_findPage p els (none, none) []
    rw [hfp] at heq
    simpa [specPageItems, findPage] using heq

/-- C4 (witness): a three-element stream over pages 2, 1, 2 aggregates to
pages 1 then 2, page 2 holding its two items in arrival order. -/
theorem claim_C4_witness :
    ([(⟨"paragraph", none, none, none, some "", none⟩ : ContentItem),
      (⟨"paragraph", none, none, none, some "", none⟩ : ContentItem)] =
      specPageItems [(⟨"X", none, 2, none⟩ : Element), (⟨"Y", none, 1, none⟩ : Element),
        (⟨"Z", none, 2, none⟩ : Element)] 2) ∧
    ([(⟨"paragraph", none, none, none, some "", none⟩ : ContentItem),
      (⟨"paragraph", none, none, none, some "", none⟩ : ContentItem)] ≠ []) := by
  exact (claim_C4 _).2.2.2 2 _ (by decide)

end Conversion
